import Mathlib

/-!
Verification development for the calculator engine in `src/calc/logic.py`.

The Python module performs all arithmetic on `decimal.Decimal` with
`getcontext().prec = 28` (rounding half-even).  A `Decimal` value is a
coefficient times a power of ten; we embed such values as the structure
`DNum` below, with exact integer arithmetic and explicit 28-significant-digit
rounding exactly where the `decimal` context rounds.

The evaluator `safe_calculate` joins the committed tokens with spaces and
parses the result with Python's `ast.parse`, so number literals containing a
decimal point are first converted to binary64 floats and then back through
`Decimal(str(value))`; integers are exact.  That conversion chain (round to
nearest double, then shortest round-tripping decimal) is embedded below as
`floatRound` / `shortestRepr`.
-/

namespace CalcSpec

/-- The four binary operator tokens (`OPERATORS` in the source). -/
inductive BOp
  | add
  | sub
  | mul
  | div
deriving DecidableEq

/-- A decimal value: `c * 10 ^ e`, mirroring the coefficient/exponent pair of
a Python `Decimal`.  Only the value matters to the program (every string it
shows goes through normalization first), so equality of values is tested with
`dnumEq`, not structural equality. -/
structure DNum where
  c : Int
  e : Int
deriving DecidableEq

def dnZero : DNum := ⟨0, 0⟩

def pow10 (k : Nat) : Int := ((10 ^ k : Nat) : Int)

/-- Decimal digits of `n`, least significant first; `[]` for `0`.  The first
argument is fuel; calling with fuel `n` always suffices since the recursion
halves the number of digits at least every step. -/
def digitsRev : Nat → Nat → List Nat
  | 0, _ => []
  | fuel + 1, n => if n = 0 then [] else (n % 10) :: digitsRev fuel (n / 10)

/-- Number of decimal digits of `n` (0 for 0). -/
def numD (n : Nat) : Nat := (digitsRev n n).length

/-- Round-half-even of the rational `c / d` (for `d > 0`), as used by the
`decimal` context (`ROUND_HALF_EVEN`). -/
def rheDiv (c : Int) (d : Nat) : Int :=
  if d = 0 then 0
  else
    let q := Int.ediv c d
    let r := Int.emod c d
    if 2 * r < (d : Int) then q
    else if 2 * r > (d : Int) then q + 1
    else if q % 2 = 0 then q else q + 1

/-- Round-half-even of `p / q` on naturals (`q > 0`). -/
def rheFracN (p q : Nat) : Nat :=
  if q = 0 then 0
  else
    let t := p / q
    let r := p % q
    if 2 * r < q then t
    else if 2 * r > q then t + 1
    else if t % 2 = 0 then t else t + 1

/-- Round a decimal value to at most `d` significant digits (half-even), the
rounding the `decimal` context applies at precision `d`. -/
def roundSig (v : DNum) (d : Nat) : DNum :=
  let n := v.c.natAbs
  let dg := numD n
  if dg ≤ d then v
  else
    let drop := dg - d
    ⟨rheDiv v.c (10 ^ drop), v.e + (drop : Int)⟩

/-- Rounding to the context precision of the source (`getcontext().prec = 28`). -/
def roundPrec (v : DNum) : DNum := roundSig v 28

/-- Strip factors of ten from the coefficient into the exponent
(`Decimal.normalize` after the precision rounding).  Fuel-bounded; 40 covers
any coefficient the program produces after `roundPrec`. -/
def stripZ : Nat → DNum → DNum
  | 0, v => v
  | fuel + 1, v =>
    if v.c ≠ 0 ∧ Int.emod v.c 10 = 0 then stripZ fuel ⟨Int.ediv v.c 10, v.e + 1⟩ else v

/-- Value comparison helpers: align the two coefficients to a common exponent. -/
def dnAlign (a b : DNum) : Int × Int :=
  let m := min a.e b.e
  (a.c * pow10 (a.e - m).toNat, b.c * pow10 (b.e - m).toNat)

def dnumEq (a b : DNum) : Bool :=
  let p := dnAlign a b
  p.1 == p.2

def dnLT (a b : DNum) : Bool :=
  let p := dnAlign a b
  decide (p.1 < p.2)

def dnLE (a b : DNum) : Bool :=
  let p := dnAlign a b
  decide (p.1 ≤ p.2)

/-- Context addition: exact sum, rounded to 28 significant digits. -/
def decAdd (a b : DNum) : DNum :=
  let m := min a.e b.e
  roundPrec ⟨a.c * pow10 (a.e - m).toNat + b.c * pow10 (b.e - m).toNat, m⟩

/-- Context subtraction. -/
def decSub (a b : DNum) : DNum :=
  let m := min a.e b.e
  roundPrec ⟨a.c * pow10 (a.e - m).toNat - b.c * pow10 (b.e - m).toNat, m⟩

/-- Context multiplication. -/
def decMul (a b : DNum) : DNum :=
  roundPrec ⟨a.c * b.c, a.e + b.e⟩

/-- Context unary minus (`-x` on a `Decimal` applies the context). -/
def decNeg (a : DNum) : DNum := roundPrec ⟨-a.c, a.e⟩

/-- Exact negation, as performed by the `Decimal` constructor on a signed
literal (construction from a string never rounds). -/
def negExact (a : DNum) : DNum := ⟨-a.c, a.e⟩

def decIsZero (a : DNum) : Bool := a.c == 0

/-- Context division: correctly rounded (half-even) quotient at 28
significant digits.  Divisor zero is guarded by the caller (the evaluator
raises `ZeroDivisionError` before dividing); we return 0 in that dead case. -/
def decDiv (a b : DNum) : DNum :=
  if b.c = 0 then dnZero
  else
    let x := a.c.natAbs
    let y := b.c.natAbs
    let k0 : Int := 28 + (numD y : Int) - (numD x : Int)
    let quot : Int → Nat := fun k => rheFracN (x * 10 ^ k.toNat) (y * 10 ^ (-k).toNat)
    let t0 := quot k0
    let adjust := numD t0 - 28
    let k1 := k0 - (adjust : Int)
    let t1 := if adjust = 0 then t0 else quot k1
    let sgn : Int := if (a.c < 0) = (b.c < 0) then 1 else -1
    ⟨sgn * (t1 : Int), a.e - b.e - k1⟩

/-! ### Number formatting and parsing (`_format_decimal`, `_sanitize_number`) -/

def digitChar (d : Nat) : Char := Char.ofNat (48 + d)

def isDigitChar (c : Char) : Bool := 48 ≤ c.toNat && c.toNat ≤ 57

def digitValC (c : Char) : Nat := c.toNat - 48

/-- Most-significant-first digit characters of `n`; empty for `0`. -/
def digitStr (n : Nat) : List Char := ((digitsRev n n).reverse).map digitChar

/-- Fraction digits of `m`, left-padded with zeros to width `k`. -/
def fracStr (k m : Nat) : List Char :=
  let l := digitStr m
  List.replicate (k - l.length) '0' ++ l

/-- Embedding of `_format_decimal`: `format(value.normalize(), "f")` with the
trailing-zero and trailing-dot stripping and the `-0 → 0` collapse.  `normalize` rounds to
the context precision and drops trailing zero digits; formatting with `"f"`
then prints the exact value without an exponent, so the net result is the
canonical fixed-point string of the 28-digit-rounded value. -/
def formatDecimal (v : DNum) : String :=
  let r := stripZ 40 (roundPrec v)
  if r.c = 0 then "0"
  else
    let sgn : List Char := if r.c < 0 then ['-'] else []
    let n := r.c.natAbs
    if 0 ≤ r.e then
      String.mk (sgn ++ digitStr n ++ List.replicate r.e.toNat '0')
    else
      let k := (-r.e).toNat
      let ip := n / 10 ^ k
      let ipStr := if ip = 0 then ['0'] else digitStr ip
      String.mk (sgn ++ ipStr ++ '.' :: fracStr k (n % 10 ^ k))

/-- Longest digit prefix of a character list, with the remainder. -/
def spanDigits : List Char → List Char × List Char
  | [] => ([], [])
  | c :: r =>
    if isDigitChar c then
      let p := spanDigits r
      (c :: p.1, p.2)
    else ([], c :: r)

def natOfDigits (l : List Char) : Nat :=
  l.foldl (fun a c => a * 10 + digitValC c) 0

/-- Unsigned decimal-literal parse: `digits`, `digits.digits`, `digits.` or
`.digits`, exactly the forms `Decimal(text)` accepts for the strings this
engine can ever hold (exponent notation is accepted by `Decimal` but is never
produced by the engine, whose strings are built from digits, one dot and a
leading sign only). -/
def parseUnsigned (l : List Char) : Option DNum :=
  let p := spanDigits l
  match p.2 with
  | [] => if p.1 = [] then none else some ⟨(natOfDigits p.1 : Int), 0⟩
  | c :: r2 =>
    if c = '.' then
      let q := spanDigits r2
      if q.2 ≠ [] then none
      else if p.1 = [] ∧ q.1 = [] then none
      else some ⟨(natOfDigits (p.1 ++ q.1) : Int), -(q.1.length : Int)⟩
    else none

/-- Embedding of `Decimal(text)`: exact parse of a signed decimal string. -/
def parseDec (s : String) : Option DNum :=
  match s.data with
  | [] => none
  | c :: r =>
    if c = '-' then (parseUnsigned r).map negExact
    else if c = '+' then parseUnsigned r
    else parseUnsigned (c :: r)

/-- Embedding of `_sanitize_number`: exact parse, then canonical format;
`none` models the raised `ValueError`. -/
def sanitizeNumber (s : String) : Option String :=
  (parseDec s).map formatDecimal

/-! ### The binary64 conversion chain inside the evaluator

`_SafeEvaluator.visit` turns a numeric AST constant into
`Decimal(str(node.value))`.  Python's parser produces an exact `int` for a
literal without a decimal point, and a binary64 `float` otherwise; `str` of a
float is the shortest decimal string that rounds back to the same float.  We
model doubles by their exact values (each is `m * 2^k`, hence also an exact
`DNum`), rounding to nearest with ties to even.  Overflow and subnormal
corner cases lie far outside the magnitudes the engine can commit (a token
containing a dot always has fewer than 29 significant digits) and are not
modelled. -/

def dnHalf (v : DNum) : DNum := ⟨v.c * 5, v.e - 1⟩

def dnDouble (v : DNum) : DNum := ⟨v.c * 2, v.e⟩

def dnOne : DNum := ⟨1, 0⟩

def dnTwo : DNum := ⟨2, 0⟩

/-- Number of halvings needed to bring `v ≥ 2` below 2 (fuel-bounded). -/
def upExp : Nat → DNum → Nat
  | 0, _ => 0
  | fuel + 1, v => if dnLT v dnTwo then 0 else upExp fuel (dnHalf v) + 1

/-- Number of doublings needed to bring `0 < v < 1` up to at least 1. -/
def downExp : Nat → DNum → Nat
  | 0, _ => 0
  | fuel + 1, v => if dnLE dnOne v then 0 else downExp fuel (dnDouble v) + 1

/-- Binary exponent of a positive value: `2^k ≤ v < 2^(k+1)`. -/
def binExp (v : DNum) : Int :=
  if dnLE dnOne v then (upExp 1300 v : Int) else -(downExp 1300 v : Int)

/-- Round-half-even of `v * 2^j * 10^... ` — the integer nearest
`|v| * 2^(52-k)`, computed exactly on naturals. -/
def mantissaOf (n : Nat) (e : Int) (k : Int) : Nat :=
  let twoUp := (52 - k).toNat
  let twoDn := (k - 52).toNat
  rheFracN (n * 2 ^ twoUp * 10 ^ e.toNat) (2 ^ twoDn * 10 ^ (-e).toNat)

/-- Value of the binary64 double nearest to `v` (ties to even): the exact
model of Python's float conversion of a decimal literal. -/
def floatRound (v : DNum) : DNum :=
  if v.c = 0 then dnZero
  else
    let n := v.c.natAbs
    let k := binExp ⟨(n : Int), v.e⟩
    let m := mantissaOf n v.e k
    let mag : DNum :=
      if 52 ≤ k then ⟨(m : Int) * pow10 0 * ((2 ^ (k - 52).toNat : Nat) : Int), 0⟩
      else ⟨(m : Int) * ((5 ^ (52 - k).toNat : Nat) : Int), k - 52⟩
    if v.c < 0 then negExact mag else mag

/-- Search step for `shortestRepr`: try `d, d+1, …` significant digits. -/
def srGo : Nat → Nat → DNum → DNum
  | 0, _, f => roundSig f 17
  | fuel + 1, d, f =>
    let cand := roundSig f d
    if dnumEq (floatRound cand) f then cand else srGo fuel (d + 1) f

/-- Value of `str(x)` for a double `x`: the shortest (correctly rounded)
decimal that converts back to the same double. -/
def shortestRepr (f : DNum) : DNum :=
  if f.c = 0 then dnZero else srGo 17 1 f

/-! ### The evaluator (`_SafeEvaluator` / `safe_calculate`)

`safe_calculate` receives the committed tokens joined by single spaces and
parses them with `ast.parse`, so the grammar is Python's: `*` and `/` bind
tighter than `+` and `-`, and each level associates to the left.  We embed it
at the token-list level (the join is injective on the alternating
number/operator lists the engine builds, so nothing is lost).  A list that is
not alternating, or a token Python's grammar would reject, corresponds to a
`SyntaxError` from `ast.parse`, which the source does *not* catch — modelled
by the `synExc` outcome.  (A leading-zero integer literal would also be a
`SyntaxError` in Python; the engine never produces one and we accept it here.) -/

inductive ERes
  | val (d : DNum)
  | zeroDiv
  | valueErr
  | synExc
deriving DecidableEq

def opOf (s : String) : Option BOp :=
  if s = "+" then some .add
  else if s = "-" then some .sub
  else if s = "*" then some .mul
  else if s = "/" then some .div
  else none

/-- Membership in `OPERATORS` (exact string match in the source). -/
def isOpTok (s : String) : Bool := (opOf s).isSome

/-- Unsigned numeric-literal conversion of the AST visitor:
`Decimal(str(node.value))` with `node.value` an `int` (exact) or a binary64
`float` (shortest-repr round trip). -/
def tokCore (l : List Char) : Option DNum :=
  if l.any (· = '.') then (parseUnsigned l).map (fun q => shortestRepr (floatRound q))
  else if l ≠ [] ∧ l.all isDigitChar then some ⟨(natOfDigits l : Int), 0⟩
  else none

/-- Conversion of one number token of the joined expression.  A leading `-`
parses as `ast.UnaryOp USub`, whose visit negates the operand under the
context. -/
def tokVal (t : String) : Option DNum :=
  match t.data with
  | [] => none
  | c :: r => if c = '-' then (tokCore r).map decNeg else tokCore (c :: r)

/-- Parse the (operator, number) tail of an alternating token list. -/
def parsePairs : List String → Option (List (BOp × DNum))
  | [] => some []
  | [_] => none
  | o :: n :: rest =>
    match opOf o, tokVal n, parsePairs rest with
    | some b, some d, some l => some ((b, d) :: l)
    | _, _, _ => none

/-- Close the pending additive prefix with the finished multiplicative chunk. -/
def closeAdd : Option (DNum × Bool) → DNum → DNum
  | none, c => c
  | some (a, true), c => decAdd a c
  | some (a, false), c => decSub a c

/-- Left-to-right evaluation of the pair list with Python's precedence:
`*`/`/` extend the current multiplicative chunk, `+`/`-` close it into the
additive accumulator.  This computes exactly the value of the left-associated
`ast.BinOp` tree, including the `right == 0` check before each division. -/
def evalPairs (pre : Option (DNum × Bool)) (chunk : DNum) : List (BOp × DNum) → ERes
  | [] => .val (closeAdd pre chunk)
  | (b, d) :: rest =>
    match b with
    | .mul => evalPairs pre (decMul chunk d) rest
    | .div => if decIsZero d then .zeroDiv else evalPairs pre (decDiv chunk d) rest
    | .add => evalPairs (some (closeAdd pre chunk, true)) d rest
    | .sub => evalPairs (some (closeAdd pre chunk, false)) d rest

/-- Embedding of `safe_calculate` on the token list whose space-join is the
expression string: empty expression gives `Decimal("0")`; otherwise parse and
reduce the `ast` tree. -/
def safeCalculate (toks : List String) : ERes :=
  match toks with
  | [] => .val dnZero
  | t :: rest =>
    match tokVal t, parsePairs rest with
    | some d, some ps => evalPairs none d ps
    | _, _ => .synExc

/-- Exact-parse version of `parsePairs`, for the spec-side evaluator below. -/
def specPairs : List String → Option (List (BOp × DNum))
  | [] => some []
  | [_] => none
  | o :: n :: rest =>
    match opOf o, parseDec n, specPairs rest with
    | some b, some d, some l => some ((b, d) :: l)
    | _, _, _ => none

/-- Strict left-to-right fold, for the spec-side evaluator below. -/
def specFold (acc : DNum) : List (BOp × DNum) → ERes
  | [] => .val acc
  | (b, d) :: rest =>
    match b with
    | .add => specFold (decAdd acc d) rest
    | .sub => specFold (decSub acc d) rest
    | .mul => specFold (decMul acc d) rest
    | .div => if decIsZero d then .zeroDiv else specFold (decDiv acc d) rest

/-- Left-to-right, precedence-free evaluation of the token list with exact
literal conversion.  Modelled from the spec's words for the evaluator
("initialize accumulator to the first number; for each subsequent
(operator, number) pair, apply the operator to (accumulator, number) in
order, left to right", numbers "converted exactly") — it exists only to be
compared against `safeCalculate`, the embedding of the source. -/
def specEvalLeftToRight (toks : List String) : ERes :=
  match toks with
  | [] => .val dnZero
  | t :: rest =>
    match parseDec t, specPairs rest with
    | some d, some ps => specFold d ps
    | _, _ => .synExc

/-! ### The engine (`CalculatorState` / `CalculatorEngine`) -/

/-- Embedding of the `CalculatorState` dataclass. -/
structure CalculatorState where
  tokens : List String
  current : String
  overwrite : Bool
  error : Option String
deriving DecidableEq

/-- The fresh state produced by `CalculatorState()`. -/
def initState : CalculatorState := ⟨[], "0", true, none⟩

/-- Python truthiness of the `error` field (`if self.state.error:`):
`None` and the empty string are falsy. -/
def errTruthy : Option String → Bool
  | none => false
  | some m => !(m.isEmpty)

/-- Embedding of `_reset_on_error`. -/
def resetOnError (s : CalculatorState) : CalculatorState :=
  if errTruthy s.error then initState else s

/-- Exceptions that can escape `process` to the caller: the `ValueError`
raised by `_sanitize_number` inside `_commit_current` (uncaught in
`_apply_operator`), and a `SyntaxError` from `ast.parse` (uncaught in
`_calculate_result`). -/
inductive PyErr
  | valueError
  | synExc
deriving DecidableEq

def parseFailMsg : String := "数値の解析に失敗しました"

def exprFailMsg : String := "式の解析に失敗しました"

def zeroDivMsg : String := "ゼロ除算エラー"

/-- Embedding of `_set_error`. -/
def setError (msg : String) (_s : CalculatorState) : CalculatorState :=
  ⟨[], "0", true, some msg⟩

/-- Embedding of `_input_digit` (the argument is the raw command string; the
dispatch passes along whatever substring of `"0123456789"` arrived). -/
def inputDigit (d : String) (s : CalculatorState) : CalculatorState :=
  let s1 := resetOnError s
  if s1.overwrite then { s1 with current := d, overwrite := false }
  else if s1.current = "0" then { s1 with current := d }
  else { s1 with current := s1.current ++ d }

/-- Embedding of `_input_decimal_point`. -/
def inputDecimalPoint (s : CalculatorState) : CalculatorState :=
  let s1 := resetOnError s
  if s1.overwrite then { s1 with current := "0.", overwrite := false }
  else if s1.current.data.any (· = '.') then s1
  else { s1 with current := s1.current.push '.' }

/-- Embedding of `_commit_current`'s token update, given the sanitized value. -/
def commitToks (l : List String) (v : String) : List String :=
  if l = [] then [v]
  else if (l.getLast? ).any isOpTok then l ++ [v]
  else l.dropLast ++ [v]

/-- Last token is an operator (`self.state.tokens and self.state.tokens[-1]
in OPERATORS`). -/
def lastIsOp (l : List String) : Bool := (l.getLast?).any isOpTok

/-- Embedding of `_apply_operator`: commit the entry, then collapse onto or
append the operator.  The `ValueError` from `_sanitize_number` is not caught
here and escapes `process`. -/
def applyOperator (op : String) (s : CalculatorState) : Option PyErr × CalculatorState :=
  let s1 := resetOnError s
  match sanitizeNumber s1.current with
  | none => (some .valueError, s1)
  | some v =>
    let t1 := commitToks s1.tokens v
    let t2 := if lastIsOp t1 then t1.dropLast ++ [op] else t1 ++ [op]
    (none, { s1 with tokens := t2, overwrite := true })

/-- Embedding of lines 173–184 of `_calculate_result`: build the local
evaluation list from a copy of `tokens`.  `none` models the caught
`ValueError` from `_sanitize_number` (which leads to `_set_error`). -/
def buildEvalList (toks : List String) (cur : String) (ow : Bool) : Option (List String) :=
  if !ow || lastIsOp toks then
    match sanitizeNumber cur with
    | none => none
    | some v => some (if lastIsOp toks then toks ++ [v] else toks.dropLast ++ [v])
  else if lastIsOp toks then some toks.dropLast
  else some toks

/-- Embedding of `_calculate_result`.  `ZeroDivisionError` and
`ValueError`/`InvalidOperation` from `safe_calculate` are caught and turned
into error states; a `SyntaxError` from `ast.parse` would escape. -/
def calculateResult (s : CalculatorState) : Option PyErr × CalculatorState :=
  let s1 := resetOnError s
  if s1.tokens = [] then
    match sanitizeNumber s1.current with
    | none => (none, setError parseFailMsg s1)
    | some r => (none, { s1 with current := r, overwrite := true })
  else
    match buildEvalList s1.tokens s1.current s1.overwrite with
    | none => (none, setError parseFailMsg s1)
    | some l =>
      match safeCalculate l with
      | .zeroDiv => (none, setError zeroDivMsg s1)
      | .valueErr => (none, setError exprFailMsg s1)
      | .synExc => (some .synExc, s1)
      | .val d =>
        (none, { tokens := [], current := formatDecimal d, overwrite := true, error := none })

/-- Embedding of `_clear_all`. -/
def clearAll (_s : CalculatorState) : CalculatorState := initState

/-- Embedding of `_clear_entry`. -/
def clearEntry (s : CalculatorState) : CalculatorState :=
  let s1 := resetOnError s
  { s1 with current := "0", overwrite := true }

/-- Embedding of `_toggle_sign` (`Decimal(current) * Decimal("-1")`). -/
def toggleSign (s : CalculatorState) : CalculatorState :=
  let s1 := resetOnError s
  match parseDec s1.current with
  | none => setError parseFailMsg s1
  | some v =>
    { s1 with current := formatDecimal (decMul v ⟨-1, 0⟩), overwrite := false }

/-- The token two before the end (`tokens[-2]`), defined when it exists. -/
def sndLast (l : List String) : Option String := l.get? (l.length - 2)

/-- Embedding of `_percent`. -/
def percent (s : CalculatorState) : CalculatorState :=
  let s1 := resetOnError s
  match parseDec s1.current with
  | none => setError parseFailMsg s1
  | some cv =>
    let value :=
      if 2 ≤ s1.tokens.length ∧ lastIsOp s1.tokens then
        let base := (((sndLast s1.tokens).bind parseDec).getD dnZero)
        decDiv (decMul base cv) ⟨100, 0⟩
      else decDiv cv ⟨100, 0⟩
    { s1 with current := formatDecimal value, overwrite := false }

/-- Embedding of `_backspace`. -/
def backspace (s : CalculatorState) : CalculatorState :=
  let s1 := resetOnError s
  if s1.overwrite then { s1 with current := "0" }
  else if 1 < s1.current.length then
    let c2 := String.mk s1.current.data.dropLast
    if c2 = "-" ∨ c2 = "-0" then { s1 with current := "0", overwrite := true }
    else { s1 with current := c2 }
  else { s1 with current := "0", overwrite := true }

def isPrefixL : List Char → List Char → Bool
  | [], _ => true
  | _ :: _, [] => false
  | a :: as, b :: bs => a == b && isPrefixL as bs

def isInfixL : List Char → List Char → Bool
  | l, [] => isPrefixL l []
  | l, b :: bs => isPrefixL l (b :: bs) || isInfixL l bs

/-- Python's `command in "0123456789"`: substring containment, so it is true
for `""`, every digit, and every multi-digit run like `"12"`. -/
def isDigitCmd (cmd : String) : Bool := isInfixL cmd.data "0123456789".data

/-- Commands with an entry in the `dispatcher` dictionary. -/
def isDispatchCmd (cmd : String) : Bool :=
  cmd = "C" || cmd = "CE" || cmd = "=" || cmd = "%" || cmd = "+/-" || cmd = "±" ||
  cmd = "⌫" || cmd = "Backspace"

/-- A command string that `process` does not fall through to the final
`else` on. -/
def recognizedCmd (cmd : String) : Bool :=
  isDigitCmd cmd || cmd = "." || isOpTok cmd || isDispatchCmd cmd

/-- Embedding of `CalculatorEngine.process`: the branch order follows the
source (`command in "0123456789"`, then `"."`, then `OPERATORS`, then the
dispatcher, else a no-op).  The first component records an escaped Python
exception; the second is the engine state afterwards (on an escaped
exception, the state keeps every mutation made before the raise). -/
def process (cmd : String) (s : CalculatorState) : Option PyErr × CalculatorState :=
  if isDigitCmd cmd then (none, inputDigit cmd s)
  else if cmd = "." then (none, inputDecimalPoint s)
  else if isOpTok cmd then applyOperator cmd s
  else if cmd = "C" then (none, clearAll s)
  else if cmd = "CE" then (none, clearEntry s)
  else if cmd = "=" then calculateResult s
  else if cmd = "%" then (none, percent s)
  else if cmd = "+/-" ∨ cmd = "±" then (none, toggleSign s)
  else if cmd = "⌫" ∨ cmd = "Backspace" then (none, backspace s)
  else (none, s)

/-- The state reached after `process` (also defined when an exception
escaped: the engine object survives with the mutations made so far). -/
def procState (cmd : String) (s : CalculatorState) : CalculatorState :=
  (process cmd s).2

/-- Join with single spaces (`" ".join(self.tokens)`). -/
def joinSpace : List String → String
  | [] => ""
  | [x] => x
  | x :: r => x ++ " " ++ joinSpace r

/-- Embedding of `get_display`. -/
def getDisplay (s : CalculatorState) : String × String × Option String :=
  (joinSpace s.tokens, s.current, s.error)

/-- Run a list of commands from a fresh engine, stopping at the first escaped
exception (an uncaught exception aborts the driving loop). -/
def runCmds (l : List String) : Option PyErr × CalculatorState :=
  l.foldl
    (fun acc cmd =>
      match acc with
      | (some e, s) => (some e, s)
      | (none, s) => process cmd s)
    (none, initState)

/-- States reachable through the public interface: the fresh state, closed
under processing arbitrary command strings (including the state left behind
when a call raises). -/
inductive Reachable : CalculatorState → Prop
  | base : Reachable initState
  | step (cmd : String) (s : CalculatorState) : Reachable s → Reachable (procState cmd s)

/-! ### Shape predicates for the reachability invariant -/

/-- Canonical-number shape (the image of `_format_decimal`): an optional
leading minus, a nonempty run of digits, optionally followed by a dot and a
nonempty run of digits. -/
def isCanonBody (l : List Char) : Bool :=
  let p := spanDigits l
  match p.2 with
  | [] => decide (p.1 ≠ [])
  | c :: r2 =>
    if c = '.' then
      let q := spanDigits r2
      decide (p.1 ≠ []) && decide (q.1 ≠ []) && decide (q.2 = [])
    else false

def isCanonNum (s : String) : Bool :=
  match s.data with
  | [] => false
  | c :: r => if c = '-' then isCanonBody r else isCanonBody (c :: r)

/-- Strict alternation of a token list, starting with a number entry when the
flag is `false` and with an operator when it is `true`. -/
def wfToks (b : Bool) : List String → Bool
  | [] => true
  | x :: r => (if b then isOpTok x else isCanonNum x) && wfToks (!b) r

/-- The token invariant every state reachable through `process` satisfies:
the committed tokens alternate canonical numbers and operators starting with
a number, and between commands the sequence is empty or ends with the one
pending operator (hence has even length). -/
def Inv (s : CalculatorState) : Prop :=
  wfToks false s.tokens = true ∧
    (s.tokens = [] ∨ (lastIsOp s.tokens = true ∧ s.tokens.length % 2 = 0))

/-! ### Lemmas: canonical shape of formatted numbers -/

theorem digitsRev_lt_ten (fuel n : Nat) : ∀ x ∈ digitsRev fuel n, x < 10 := by
  induction fuel generalizing n with
  | zero => intro x hx; simp [digitsRev] at hx
  | succ f ih =>
    intro x hx
    unfold digitsRev at hx
    by_cases h : n = 0
    · simp [h] at hx
    · simp [h] at hx
      rcases hx with h1 | h1
      · subst h1; exact Nat.mod_lt _ (by omega)
      · exact ih _ _ h1

theorem digitChar_isDigit (d : Nat) (hd : d < 10) : isDigitChar (digitChar d) = true := by
  interval_cases d <;> decide

theorem digitStr_all_digits (n : Nat) : ∀ c ∈ digitStr n, isDigitChar c = true := by
  intro c hc
  unfold digitStr at hc
  simp only [List.mem_map, List.mem_reverse] at hc
  obtain ⟨d, hd, rfl⟩ := hc
  exact digitChar_isDigit d (digitsRev_lt_ten n n d hd)

theorem digitStr_ne_nil (n : Nat) (hn : n ≠ 0) : digitStr n ≠ [] := by
  obtain ⟨m, rfl⟩ := Nat.exists_eq_succ_of_ne_zero hn
  unfold digitStr digitsRev
  simp

theorem fracStr_all_digits (k m : Nat) : ∀ c ∈ fracStr k m, isDigitChar c = true := by
  intro c hc
  unfold fracStr at hc
  simp only [List.mem_append, List.mem_replicate] at hc
  rcases hc with h | h
  · rw [h.2]; decide
  · exact digitStr_all_digits m c h

theorem fracStr_ne_nil (k m : Nat) (hk : k ≠ 0) : fracStr k m ≠ [] := by
  unfold fracStr
  rcases h : digitStr m with _ | ⟨c, r⟩
  · simpa [h] using by simpa using hk
  · simp [h]

theorem spanDigits_cons (c : Char) (r : List Char) :
    spanDigits (c :: r) =
      if isDigitChar c then ((c :: (spanDigits r).1), (spanDigits r).2)
      else ([], c :: r) := rfl

theorem spanDigits_all (l : List Char) (h : ∀ c ∈ l, isDigitChar c = true) :
    spanDigits l = (l, []) := by
  induction l with
  | nil => rfl
  | cons c r ih =>
    rw [spanDigits_cons, ih fun x hx => h x (by simp [hx]), if_pos (h c (by simp))]

theorem spanDigits_stop (a r : List Char) (h : ∀ c ∈ a, isDigitChar c = true) :
    spanDigits (a ++ '.' :: r) = (a, '.' :: r) := by
  induction a with
  | nil =>
    rw [List.nil_append, spanDigits_cons, if_neg]
    decide
  | cons c s ih =>
    rw [List.cons_append, spanDigits_cons, ih fun x hx => h x (by simp [hx]),
      if_pos (h c (by simp))]

theorem isCanonBody_digits (l : List Char) (hne : l ≠ [])
    (h : ∀ c ∈ l, isDigitChar c = true) : isCanonBody l = true := by
  unfold isCanonBody
  rw [spanDigits_all l h]
  simpa using hne

theorem isCanonBody_point (a f : List Char) (ha : a ≠ []) (hf : f ≠ [])
    (hda : ∀ c ∈ a, isDigitChar c = true) (hdf : ∀ c ∈ f, isDigitChar c = true) :
    isCanonBody (a ++ '.' :: f) = true := by
  unfold isCanonBody
  rw [spanDigits_stop a f hda]
  simp only [if_pos rfl]
  rw [spanDigits_all f hdf]
  simp [ha, hf]

theorem isCanonNum_cons (c : Char) (r : List Char) :
    isCanonNum (String.mk (c :: r)) =
      if c = '-' then isCanonBody r else isCanonBody (c :: r) := rfl

/-- A body whose head is a digit gives a canonical string, with or without a
leading minus sign. -/
theorem isCanonNum_of_body (sgn : List Char) (l : List Char)
    (hsgn : sgn = [] ∨ sgn = ['-'])
    (hb : isCanonBody l = true)
    (hhead : ∀ c ∈ l.head?, isDigitChar c = true) :
    isCanonNum (String.mk (sgn ++ l)) = true := by
  rcases hl : l with _ | ⟨c, s⟩
  · rw [hl] at hb; exact absurd hb (by decide)
  · have hc : isDigitChar c = true := by
      apply hhead; rw [hl]; rfl
    have hcm : ¬(c = '-') := by
      intro h; rw [h] at hc; exact absurd hc (by decide)
    rcases hsgn with h | h
    · rw [h, List.nil_append, isCanonNum_cons, if_neg hcm, ← hl]
      exact hb
    · rw [h, List.cons_append, isCanonNum_cons, if_pos rfl, ← hl]
      exact hb

theorem formatDecimal_canon (v : DNum) : isCanonNum (formatDecimal v) = true := by
  unfold formatDecimal
  by_cases h0 : (stripZ 40 (roundPrec v)).c = 0
  · rw [if_pos h0]; decide
  · rw [if_neg h0]
    set r := stripZ 40 (roundPrec v) with hr
    have hnn : r.c.natAbs ≠ 0 := by simpa using h0
    by_cases he : (0 : Int) ≤ r.e
    · rw [if_pos he, List.append_assoc]
      have hdig : ∀ c ∈ digitStr r.c.natAbs ++ List.replicate r.e.toNat '0',
          isDigitChar c = true := by
        intro c hc
        rcases List.mem_append.1 hc with h1 | h1
        · exact digitStr_all_digits _ c h1
        · rw [(List.mem_replicate.1 h1).2]; decide
      have hne : digitStr r.c.natAbs ++ List.replicate r.e.toNat '0' ≠ [] := by
        rcases hd : digitStr r.c.natAbs with _ | ⟨c, s⟩
        · exact absurd hd (digitStr_ne_nil _ hnn)
        · simp
      refine isCanonNum_of_body _ _ ?_ ?_ ?_
      · by_cases hneg : r.c < 0
        · rw [if_pos hneg]; right; rfl
        · rw [if_neg hneg]; left; rfl
      · exact isCanonBody_digits _ hne hdig
      · intro c hc
        rcases hd : digitStr r.c.natAbs with _ | ⟨d, s⟩
        · exact absurd hd (digitStr_ne_nil _ hnn)
        · rw [hd] at hc
          simp only [List.cons_append, List.head?_cons, Option.mem_def,
            Option.some.injEq] at hc
          apply hdig
          rw [hd, hc]
          simp
    · rw [if_neg he]
      dsimp only
      rw [List.append_assoc]
      have hk : (-r.e).toNat ≠ 0 := by omega
      set k := (-r.e).toNat with hkdef
      set n := r.c.natAbs with hndef
      set ipStr := (if n / 10 ^ k = 0 then ['0'] else digitStr (n / 10 ^ k)) with hip
      have hip1 : ipStr ≠ [] := by
        rw [hip]
        by_cases hz : n / 10 ^ k = 0
        · simp [hz]
        · rw [if_neg hz]; exact digitStr_ne_nil _ hz
      have hip2 : ∀ c ∈ ipStr, isDigitChar c = true := by
        rw [hip]
        by_cases hz : n / 10 ^ k = 0
        · simp only [hz, if_pos]
          intro c hc
          simp only [List.mem_singleton] at hc
          rw [hc]; decide
        · rw [if_neg hz]; exact digitStr_all_digits _
      refine isCanonNum_of_body _ _ ?_ ?_ ?_
      · by_cases hneg : r.c < 0
        · rw [if_pos hneg]; right; rfl
        · rw [if_neg hneg]; left; rfl
      · exact isCanonBody_point _ _ hip1 (fracStr_ne_nil k _ hk) hip2
          (fracStr_all_digits k _)
      · intro c hc
        rcases hd : ipStr with _ | ⟨c0, s⟩
        · exact absurd hd hip1
        · rw [hd] at hc
          simp only [List.cons_append, List.head?_cons, Option.mem_def,
            Option.some.injEq] at hc
          apply hip2
          rw [hd, hc]
          simp

theorem sanitize_canon (s v : String) (h : sanitizeNumber s = some v) :
    isCanonNum v = true := by
  unfold sanitizeNumber at h
  rcases hp : parseDec s with _ | d
  · rw [hp] at h; simp at h
  · rw [hp] at h
    simp only [Option.map_some'] at h
    injection h with h'
    rw [← h']
    exact formatDecimal_canon d

theorem canon_not_op (s : String) (h : isCanonNum s = true) : isOpTok s = false := by
  by_contra hop
  have hop' : isOpTok s = true := by
    cases hx : isOpTok s
    · exact absurd hx hop
    · rfl
  unfold isOpTok opOf at hop'
  split_ifs at hop' with h1 h2 h3 h4
  · subst h1; exact absurd h (by decide)
  · subst h2; exact absurd h (by decide)
  · subst h3; exact absurd h (by decide)
  · subst h4; exact absurd h (by decide)
  · simp at hop'

/-! ### Lemmas: token alternation and the reachability invariant -/

theorem wfToks_cons (b : Bool) (x : String) (r : List String) :
    wfToks b (x :: r) = ((if b then isOpTok x else isCanonNum x) && wfToks (!b) r) := rfl

theorem flagFlip (b : Bool) (i : Nat) :
    xor (!b) (decide (i % 2 = 1)) = xor b (decide ((i + 1) % 2 = 1)) := by
  by_cases hp : i % 2 = 1
  · have hq : ¬((i + 1) % 2 = 1) := by omega
    simp [hp, hq]
  · have hq : (i + 1) % 2 = 1 := by omega
    simp [hp, hq]

theorem wf_get (l : List String) (b : Bool) (i : Nat) (t : String)
    (hw : wfToks b l = true) (hg : l.get? i = some t) :
    isOpTok t = xor b (decide (i % 2 = 1)) ∧
      (xor b (decide (i % 2 = 1)) = false → isCanonNum t = true) := by
  induction l generalizing b i with
  | nil => simp at hg
  | cons x r ih =>
    rw [wfToks_cons, Bool.and_eq_true] at hw
    cases i with
    | zero =>
      rw [List.get?_cons_zero] at hg
      injection hg with hg'
      subst hg'
      cases b with
      | true =>
        simp only [if_pos] at hw
        simpa using hw.1
      | false =>
        have hc : isCanonNum x = true := by simpa using hw.1
        simp [canon_not_op x hc, hc]
    | succ i =>
      rw [List.get?_cons_succ] at hg
      have := ih (!b) i hw.2 hg
      rw [flagFlip b i] at this
      simpa using this

theorem wfToks_append (l : List String) (b : Bool) (x : String) :
    wfToks b (l ++ [x]) =
      (wfToks b l &&
        (if xor b (decide (l.length % 2 = 1)) then isOpTok x else isCanonNum x)) := by
  induction l generalizing b with
  | nil =>
    simp only [List.nil_append, List.length_nil, wfToks_cons]
    cases b <;> simp [wfToks]
  | cons y r ih =>
    rw [List.cons_append, wfToks_cons, ih (!b), wfToks_cons, Bool.and_assoc]
    rw [List.length_cons, flagFlip b r.length]

theorem lastIsOp_nil : lastIsOp [] = false := rfl

theorem lastIsOp_concat (l : List String) (x : String) :
    lastIsOp (l ++ [x]) = isOpTok x := by
  rw [lastIsOp, List.getLast?_concat]
  rfl

theorem lastIsOp_ne_nil (l : List String) (h : lastIsOp l = true) : l ≠ [] := by
  intro hn
  rw [hn] at h
  exact absurd h (by decide)

theorem wf_lastOp_even (l : List String) (hw : wfToks false l = true)
    (hl : lastIsOp l = true) : l.length % 2 = 0 := by
  unfold lastIsOp at hl
  rcases hg : l.getLast? with _ | t
  · rw [hg] at hl; exact absurd hl (by decide)
  · rw [hg] at hl
    have hne : l ≠ [] := by
      intro hn; rw [hn] at hg; exact absurd hg (by simp)
    have hlen : 1 ≤ l.length := by
      rcases l with _ | ⟨a, r⟩
      · exact absurd rfl hne
      · simp
    have hget : l.get? (l.length - 1) = some t := by
      rw [← List.getLast?_eq_get?]; exact hg
    have := (wf_get l false (l.length - 1) t hw hget).1
    have hop : isOpTok t = true := hl
    rw [hop] at this
    have : decide ((l.length - 1) % 2 = 1) = true := by simpa using this.symm
    have hmod : (l.length - 1) % 2 = 1 := of_decide_eq_true this
    omega

theorem inv_init : Inv initState := ⟨rfl, Or.inl rfl⟩

theorem inv_setError (msg : String) (s : CalculatorState) : Inv (setError msg s) :=
  ⟨rfl, Or.inl rfl⟩

theorem inv_congr_tokens (s s' : CalculatorState) (h : s'.tokens = s.tokens)
    (hi : Inv s) : Inv s' := by
  unfold Inv at *
  rw [h]
  exact hi

theorem inv_reset (s : CalculatorState) (h : Inv s) : Inv (resetOnError s) := by
  unfold resetOnError
  split
  · exact inv_init
  · exact h

theorem inv_inputDigit (d : String) (s : CalculatorState) (h : Inv s) :
    Inv (inputDigit d s) := by
  refine inv_congr_tokens (resetOnError s) _ ?_ (inv_reset s h)
  unfold inputDigit
  dsimp only
  split_ifs <;> rfl

theorem inv_inputDecimalPoint (s : CalculatorState) (h : Inv s) :
    Inv (inputDecimalPoint s) := by
  refine inv_congr_tokens (resetOnError s) _ ?_ (inv_reset s h)
  unfold inputDecimalPoint
  dsimp only
  split_ifs <;> rfl

theorem inv_clearEntry (s : CalculatorState) (h : Inv s) : Inv (clearEntry s) :=
  inv_congr_tokens (resetOnError s) _ rfl (inv_reset s h)

theorem inv_toggleSign (s : CalculatorState) (h : Inv s) : Inv (toggleSign s) := by
  unfold toggleSign
  dsimp only
  split
  · exact inv_setError _ _
  · exact inv_congr_tokens (resetOnError s) _ rfl (inv_reset s h)

theorem inv_percent (s : CalculatorState) (h : Inv s) : Inv (percent s) := by
  unfold percent
  dsimp only
  split
  · exact inv_setError _ _
  · exact inv_congr_tokens (resetOnError s) _ rfl (inv_reset s h)

theorem inv_backspace (s : CalculatorState) (h : Inv s) : Inv (backspace s) := by
  refine inv_congr_tokens (resetOnError s) _ ?_ (inv_reset s h)
  unfold backspace
  dsimp only
  split_ifs <;> rfl

theorem inv_applyOperator (op : String) (s : CalculatorState)
    (hop : isOpTok op = true) (h : Inv s) : Inv (applyOperator op s).2 := by
  unfold applyOperator
  have h1 : Inv (resetOnError s) := inv_reset s h
  dsimp only
  split
  · exact h1
  · rename_i v hs
    have hcv : isCanonNum v = true := sanitize_canon _ _ hs
    have hvop : isOpTok v = false := canon_not_op _ hcv
    have hkey : wfToks false (commitToks (resetOnError s).tokens v) = true ∧
        (commitToks (resetOnError s).tokens v).length % 2 = 1 ∧
        lastIsOp (commitToks (resetOnError s).tokens v) = false := by
      rcases h1.2 with hnil | ⟨hlast, heven⟩
      · rw [commitToks, if_pos hnil]
        refine ⟨by simp [wfToks, hcv], by simp, ?_⟩
        have : ([] : List String) ++ [v] = [v] := rfl
        rw [← this, lastIsOp_concat]
        exact hvop
      · have hne : (resetOnError s).tokens ≠ [] := lastIsOp_ne_nil _ hlast
        rw [commitToks, if_neg hne]
        have hany : ((resetOnError s).tokens.getLast?).any isOpTok = true := hlast
        rw [if_pos hany]
        refine ⟨?_, ?_, ?_⟩
        · rw [wfToks_append]
          have hmod : ¬((resetOnError s).tokens.length % 2 = 1) := by omega
          simp [h1.1, hmod, hcv]
        · simp only [List.length_append, List.length_singleton]
          omega
        · rw [lastIsOp_concat]; exact hvop
    rw [if_neg (by rw [hkey.2.2]; simp)]
    refine ⟨?_, Or.inr ⟨?_, ?_⟩⟩
    · show wfToks false (commitToks (resetOnError s).tokens v ++ [op]) = true
      rw [wfToks_append]
      simp [hkey.1, hkey.2.1, hop]
    · show lastIsOp (commitToks (resetOnError s).tokens v ++ [op]) = true
      rw [lastIsOp_concat]; exact hop
    · show (commitToks (resetOnError s).tokens v ++ [op]).length % 2 = 0
      simp only [List.length_append, List.length_singleton]
      have := hkey.2.1
      omega

theorem inv_calculateResult (s : CalculatorState) (h : Inv s) :
    Inv (calculateResult s).2 := by
  unfold calculateResult
  have h1 : Inv (resetOnError s) := inv_reset s h
  dsimp only
  split_ifs with hnil
  · split
    · exact inv_setError parseFailMsg (resetOnError s)
    · exact inv_congr_tokens (resetOnError s) _ rfl h1
  · split
    · exact inv_setError parseFailMsg (resetOnError s)
    · split
      · exact inv_setError zeroDivMsg (resetOnError s)
      · exact inv_setError exprFailMsg (resetOnError s)
      · exact h1
      · exact ⟨rfl, Or.inl rfl⟩

theorem inv_process (cmd : String) (s : CalculatorState) (h : Inv s) :
    Inv (procState cmd s) := by
  unfold procState process
  split_ifs with h1 h2 h3 h4 h5 h6 h7 h8 h9
  · exact inv_inputDigit cmd s h
  · exact inv_inputDecimalPoint s h
  · exact inv_applyOperator cmd s h3 h
  · exact inv_init
  · exact inv_clearEntry s h
  · exact inv_calculateResult s h
  · exact inv_percent s h
  · exact inv_toggleSign s h
  · exact inv_backspace s h
  · exact h

theorem inv_reachable (s : CalculatorState) (h : Reachable s) : Inv s := by
  induction h with
  | base => exact inv_init
  | step cmd s hs ih => exact inv_process cmd s ih

/-! ### Lemmas: behaviour on a prior error state -/

theorem reset_of_err (s : CalculatorState) (h : errTruthy s.error = true) :
    resetOnError s = initState := by
  unfold resetOnError
  rw [if_pos h]

theorem inputDigit_err (d : String) (s : CalculatorState)
    (h : errTruthy s.error = true) : inputDigit d s = inputDigit d initState := by
  unfold inputDigit
  rw [reset_of_err s h]
  rfl

theorem inputDecimalPoint_err (s : CalculatorState) (h : errTruthy s.error = true) :
    inputDecimalPoint s = inputDecimalPoint initState := by
  unfold inputDecimalPoint
  rw [reset_of_err s h]
  rfl

theorem applyOperator_err (op : String) (s : CalculatorState)
    (h : errTruthy s.error = true) : applyOperator op s = applyOperator op initState := by
  unfold applyOperator
  rw [reset_of_err s h]
  rfl

theorem calculateResult_err (s : CalculatorState) (h : errTruthy s.error = true) :
    calculateResult s = calculateResult initState := by
  unfold calculateResult
  rw [reset_of_err s h]
  rfl

theorem clearEntry_err (s : CalculatorState) (h : errTruthy s.error = true) :
    clearEntry s = clearEntry initState := by
  unfold clearEntry
  rw [reset_of_err s h]
  rfl

theorem toggleSign_err (s : CalculatorState) (h : errTruthy s.error = true) :
    toggleSign s = toggleSign initState := by
  unfold toggleSign
  rw [reset_of_err s h]
  rfl

theorem percent_err (s : CalculatorState) (h : errTruthy s.error = true) :
    percent s = percent initState := by
  unfold percent
  rw [reset_of_err s h]
  rfl

theorem backspace_err (s : CalculatorState) (h : errTruthy s.error = true) :
    backspace s = backspace initState := by
  unfold backspace
  rw [reset_of_err s h]
  rfl

/-! ### Helper equations for literal parsing -/

theorem tokVal_cons (c : Char) (r : List Char) :
    tokVal (String.mk (c :: r)) =
      if c = '-' then (tokCore r).map decNeg else tokCore (c :: r) := rfl

theorem parseDec_cons (c : Char) (r : List Char) :
    parseDec (String.mk (c :: r)) =
      if c = '-' then (parseUnsigned r).map negExact
      else if c = '+' then parseUnsigned r
      else parseUnsigned (c :: r) := rfl

theorem digit_tokVal_parseDec (l : List Char) (hne : l ≠ [])
    (hdig : ∀ c ∈ l, isDigitChar c = true) :
    tokVal (String.mk l) = some ⟨(natOfDigits l : Int), 0⟩ ∧
      parseDec (String.mk l) = some ⟨(natOfDigits l : Int), 0⟩ := by
  have hnodot : (l.any fun x => decide (x = '.')) = false := by
    rw [List.any_eq_false]
    intro c hc
    have hd := hdig c hc
    simp only [decide_eq_true_eq]
    intro hcd
    rw [hcd] at hd
    exact absurd hd (by decide)
  have hall : l.all isDigitChar = true := List.all_eq_true.mpr hdig
  have hcore : tokCore l = some ⟨(natOfDigits l : Int), 0⟩ := by
    unfold tokCore
    rw [hnodot]
    simp only [Bool.false_eq_true, if_false]
    rw [if_pos ⟨hne, hall⟩]
  have hpu : parseUnsigned l = some ⟨(natOfDigits l : Int), 0⟩ := by
    unfold parseUnsigned
    rw [spanDigits_all l hdig]
    simp only []
    rw [if_neg hne]
  rcases l with _ | ⟨c, r⟩
  · exact absurd rfl hne
  · have hc := hdig c (by simp)
    have hcm : ¬(c = '-') := by
      intro h; rw [h] at hc; exact absurd hc (by decide)
    have hcp : ¬(c = '+') := by
      intro h; rw [h] at hc; exact absurd hc (by decide)
    constructor
    · rw [tokVal_cons, if_neg hcm]
      exact hcore
    · rw [parseDec_cons, if_neg hcm, if_neg hcp]
      exact hpu

/-! ### The claims -/

set_option maxRecDepth 8000

/-- C1 (counterexample): the claim says Equals reduces the token list
strictly left to right with no precedence, so that `1, +, 2, *, 3, =` yields
9.  The code joins the tokens and parses them with `ast.parse`, which applies
Python's operator precedence: the run yields 7, not 9, while the spec-side
left-to-right evaluator does yield 9 on the same list. -/
theorem c1_left_to_right_counterexample :
    (runCmds ["1", "+", "2", "*", "3", "="]).2.current = "7" ∧
      ¬((runCmds ["1", "+", "2", "*", "3", "="]).2.current = "9") ∧
      specEvalLeftToRight ["1", "+", "2", "*", "3"] = .val ⟨9, 0⟩ ∧
      safeCalculate ["1", "+", "2", "*", "3"] = .val ⟨7, 0⟩ := by
  refine ⟨by decide, by decide, by decide, by decide⟩

/-- C1 (amended): the Equals evaluation parses the flat token list with
Python's standard operator precedence — `*` and `/` bind tighter than `+` and
`-`, each level associating left — so the committed list `1, +, 2, *, 3`
evaluates as `1 + (2 * 3) = 7`, and the run `10, -, 4, /, 5, =` displays
`10 - (4 / 5) = 9.2`. -/
theorem c1_precedence_evaluation :
    safeCalculate ["1", "+", "2", "*", "3"] = .val ⟨7, 0⟩ ∧
      getDisplay (runCmds ["1", "+", "2", "*", "3", "="]).2 = ("", "7", none) ∧
      (runCmds ["1", "0", "-", "4", "/", "5", "="]).2.current = "9.2" := by
  refine ⟨by decide, by decide, by decide⟩

/-- C2 (counterexample): the claim says every number token of the evaluation
list is converted exactly to its decimal value.  A token with a decimal point
is parsed by `ast.parse` as a binary64 float and read back through
`Decimal(str(value))`: the 24-significant-digit token
`1.00000000000000000000001` converts to exactly 1, not to its decimal value,
and the full run `1.00000000000000000000001 + 1 =` displays `2`. -/
theorem c2_exact_conversion_counterexample :
    tokVal "1.00000000000000000000001" = some ⟨1, 0⟩ ∧
      parseDec "1.00000000000000000000001" = some ⟨100000000000000000000001, -23⟩ ∧
      dnumEq ⟨1, 0⟩ ⟨100000000000000000000001, -23⟩ = false ∧
      (runCmds ["1", ".", "0", "0", "0", "0", "0", "0", "0", "0", "0", "0", "0",
        "0", "0", "0", "0", "0", "0", "0", "0", "0", "0", "1", "+", "1",
        "="]).2.current = "2" := by
  refine ⟨by decide, by decide, by decide, by decide⟩

/-- C2 (amended): arithmetic is performed on 28-significant-digit decimal
values, and a number token without a fractional part is converted exactly
(Python parses it as an arbitrary-precision `int`); but a token with a
decimal point passes through binary64 floating point
(`Decimal(str(float_literal))`), which is exact only when the decimal
survives the double round trip — `0.5` does, while
`1.00000000000000000000001` collapses to 1. -/
theorem c2_decimal_conversion_amended :
    (∀ l : List Char, l ≠ [] → (∀ c ∈ l, isDigitChar c = true) →
      tokVal (String.mk l) = some ⟨(natOfDigits l : Int), 0⟩ ∧
        parseDec (String.mk l) = some ⟨(natOfDigits l : Int), 0⟩) ∧
      tokVal "0.5" = some ⟨5, -1⟩ ∧
      parseDec "0.5" = some ⟨5, -1⟩ ∧
      tokVal "1.00000000000000000000001" = some ⟨1, 0⟩ := by
  refine ⟨digit_tokVal_parseDec, by decide, by decide, by decide⟩

/-- C2 (witness): the amended universal statement applied at the concrete
digit token `42`. -/
theorem c2_decimal_conversion_amended_witness :
    tokVal (String.mk ['4', '2']) = some ⟨(42 : Int), 0⟩ := by
  have h := (c2_decimal_conversion_amended).1 ['4', '2'] (by decide) (by decide)
  rw [h.1]
  decide

/-- C3 (code bug): the claim (and the spec) say that Equals on
`overwrite = true` with a trailing operator drops that operator, so
`5, +, =` yields 5.  In the code the condition at logic.py line 173 —
`if not overwrite or (tokens and tokens[-1] in OPERATORS)` — already captures
every state with a trailing operator, so the `elif` drop branch at lines
183–184 is unreachable; the current entry is appended as the right operand
instead and the run yields 10. -/
theorem c3_equals_appends_current :
    runCmds ["5", "+", "="] = (none, ⟨[], "10", true, none⟩) ∧
      buildEvalList ["5", "+"] "5" true = some ["5", "+", "5"] ∧
      safeCalculate ["5", "+", "5"] = .val ⟨10, 0⟩ := by
  refine ⟨by decide, by decide, by decide⟩

/-- C5 (code bug): the claim says `process` returns normally for every
command string and reachable state, converting parse errors into the error
state.  But `command in "0123456789"` is a substring test, so `process("")`
is treated as digit input and writes the empty string into `current`; the
next operator press calls `_sanitize_number("")`, whose `ValueError` is not
caught in `_apply_operator` and escapes to the caller. -/
theorem c5_uncaught_value_error :
    (runCmds [""]).1 = none ∧
      (runCmds [""]).2.current = "" ∧
      runCmds ["", "+"] = (some PyErr.valueError, ⟨[], "", false, none⟩) := by
  refine ⟨by decide, by decide, by decide⟩

/-- C8 (code bug): the claim says `current` is always parseable as a decimal,
making the parse-failure branches unreachable.  `process("")` (accepted by
the substring dispatch) sets `current` to the empty string, which
`Decimal` cannot parse, and a following ToggleSign actually reaches its
parse-failure branch and enters the error state. -/
theorem c8_current_unparseable :
    (runCmds [""]).2.current = "" ∧
      parseDec "" = none ∧
      (runCmds ["", "±"]).2.error = some parseFailMsg := by
  refine ⟨by decide, by decide, by decide⟩

/-- C9 (counterexample): the claim says Backspace on an `overwrite = true`
state is a no-op on the value, `current` staying `"0"`.  After `5, +` the
state has `overwrite = true` but `current = "5"`; Backspace then rewrites
`current` to `"0"`, changing the value. -/
theorem c9_backspace_counterexample :
    (runCmds ["5", "+"]).2.overwrite = true ∧
      (runCmds ["5", "+"]).2.current = "5" ∧
      (runCmds ["5", "+", "⌫"]).2.current = "0" ∧
      ¬((runCmds ["5", "+", "⌫"]).2.current = (runCmds ["5", "+"]).2.current) := by
  refine ⟨by decide, by decide, by decide, by decide⟩

/-- C9 (amended): for every state with `overwrite = true`, Backspace sets
`current` to `"0"` (a no-op on the value exactly when it already was `"0"`),
does not change `overwrite`, and — when no error was pending — leaves
`tokens` untouched. -/
theorem c9_backspace_overwrite (s : CalculatorState) (h : s.overwrite = true) :
    (backspace s).current = "0" ∧ (backspace s).overwrite = true ∧
      (errTruthy s.error = false → (backspace s).tokens = s.tokens) := by
  unfold backspace
  dsimp only
  by_cases herr : errTruthy s.error = true
  · rw [reset_of_err s herr]
    exact ⟨by decide, by decide, fun hc => absurd herr (by rw [hc]; decide)⟩
  · have hrs : resetOnError s = s := by
      unfold resetOnError
      rw [if_neg herr]
    rw [hrs, if_pos h]
    exact ⟨rfl, h, fun _ => rfl⟩

/-- C9 (witness): the amended statement applied at the reachable state
after `5, +`. -/
theorem c9_backspace_overwrite_witness :
    (backspace ⟨["5", "+"], "5", true, none⟩).current = "0" ∧
      (backspace ⟨["5", "+"], "5", true, none⟩).overwrite = true := by
  have h := c9_backspace_overwrite ⟨["5", "+"], "5", true, none⟩ rfl
  exact ⟨h.1, h.2.1⟩

/-- C4 (counterexample): the claim says the error-reset applies to every
input, including unrecognized command strings.  After the divide-by-zero run
`8, /, 0, =`, processing the unrecognized command `x` falls through to the
final `else`, which returns the display without resetting: the error message
survives, so the state was neither reset nor the command applied afresh. -/
theorem c4_error_reset_counterexample :
    (runCmds ["8", "/", "0", "="]).2.error = some zeroDivMsg ∧
      (runCmds ["8", "/", "0", "=", "x"]).2.error = some zeroDivMsg ∧
      recognizedCmd "x" = false ∧
      ¬((runCmds ["8", "/", "0", "=", "x"]).2.error = none) := by
  refine ⟨by decide, by decide, by decide, by decide⟩

set_option maxHeartbeats 1000000 in
/-- C4 (amended): for every *recognized* input processed while `error` is
truthy, the whole state is reset to the identity state before the command is
applied — processing the command from the error state equals processing it
from a fresh state; an unrecognized command string instead leaves the state,
error included, completely untouched. -/
theorem c4_error_resets_recognized :
    (∀ s cmd, errTruthy s.error = true → recognizedCmd cmd = true →
      process cmd s = process cmd initState) ∧
      (∀ s cmd, recognizedCmd cmd = false → process cmd s = (none, s)) := by
  constructor
  · intro s cmd herr hrec
    unfold process
    split_ifs with h1 h2 h3 h4 h5 h6 h7 h8 h9
    · rw [inputDigit_err cmd s herr]
    · rw [inputDecimalPoint_err s herr]
    · rw [applyOperator_err cmd s herr]
    · rfl
    · rw [clearEntry_err s herr]
    · rw [calculateResult_err s herr]
    · rw [percent_err s herr]
    · rw [toggleSign_err s herr]
    · rw [backspace_err s herr]
    · exfalso
      unfold recognizedCmd isDispatchCmd at hrec
      simp only [Bool.or_eq_true, decide_eq_true_eq] at hrec
      rcases hrec with ((hd | hp) | hop) |
        (((((((hc | hce) | heq) | hpc) | hpm) | hpm2) | hbs) | hbs2)
      · exact h1 hd
      · exact h2 hp
      · exact h3 hop
      · exact h4 hc
      · exact h5 hce
      · exact h6 heq
      · exact h7 hpc
      · exact h8 (Or.inl hpm)
      · exact h8 (Or.inr hpm2)
      · exact h9 (Or.inl hbs)
      · exact h9 (Or.inr hbs2)
  · intro s cmd hrec
    unfold process
    split_ifs with h1 h2 h3 h4 h5 h6 h7 h8 h9
    · refine absurd ?_ (by rw [hrec]; decide : ¬(recognizedCmd cmd = true))
      unfold recognizedCmd
      simp [h1]
    · refine absurd ?_ (by rw [hrec]; decide : ¬(recognizedCmd cmd = true))
      rw [h2]; decide
    · refine absurd ?_ (by rw [hrec]; decide : ¬(recognizedCmd cmd = true))
      unfold recognizedCmd
      simp [h3]
    · refine absurd ?_ (by rw [hrec]; decide : ¬(recognizedCmd cmd = true))
      rw [h4]; decide
    · refine absurd ?_ (by rw [hrec]; decide : ¬(recognizedCmd cmd = true))
      rw [h5]; decide
    · refine absurd ?_ (by rw [hrec]; decide : ¬(recognizedCmd cmd = true))
      rw [h6]; decide
    · refine absurd ?_ (by rw [hrec]; decide : ¬(recognizedCmd cmd = true))
      rw [h7]; decide
    · refine absurd ?_ (by rw [hrec]; decide : ¬(recognizedCmd cmd = true))
      rcases h8 with h | h
      · rw [h]; decide
      · rw [h]; decide
    · refine absurd ?_ (by rw [hrec]; decide : ¬(recognizedCmd cmd = true))
      rcases h9 with h | h
      · rw [h]; decide
      · rw [h]; decide
    · rfl

/-- C4 (witness): applying the amended statement at the divide-by-zero error
state with the recognized command `5` and the unrecognized command `x`. -/
theorem c4_error_resets_recognized_witness :
    process "5" ⟨[], "0", true, some zeroDivMsg⟩ = process "5" initState ∧
      process "x" ⟨[], "0", true, some zeroDivMsg⟩ =
        (none, ⟨[], "0", true, some zeroDivMsg⟩) := by
  refine ⟨c4_error_resets_recognized.1 _ "5" (by decide) (by decide),
    c4_error_resets_recognized.2 _ "x" (by decide)⟩

/-- C6: Percent computes `base * current / 100` when at least two tokens are
committed and the last is an operator (the base read from the second-to-last
token, falling back to 0 when it does not parse), and `current / 100`
otherwise; the canonical result replaces `current` and `overwrite` becomes
false.  Concretely, `2, 0, 0, +, 1, 0, %, =` displays `220` and `5, 0, %`
displays `0.5`. -/
theorem c6_percent_rule :
    (∀ s cv, errTruthy s.error = false → parseDec s.current = some cv →
      (percent s).current = formatDecimal
        (if 2 ≤ s.tokens.length ∧ lastIsOp s.tokens = true
         then decDiv (decMul (((sndLast s.tokens).bind parseDec).getD dnZero) cv) ⟨100, 0⟩
         else decDiv cv ⟨100, 0⟩) ∧
      (percent s).overwrite = false ∧ (percent s).tokens = s.tokens ∧
      (percent s).error = s.error) ∧
      (runCmds ["2", "0", "0", "+", "1", "0", "%", "="]).2.current = "220" ∧
      getDisplay (runCmds ["5", "0", "%"]).2 = ("", "0.5", none) := by
  refine ⟨?_, by decide, by decide⟩
  intro s cv herr hp
  have hrs : resetOnError s = s := by
    unfold resetOnError
    rw [if_neg (by rw [herr]; decide)]
  unfold percent
  dsimp only
  rw [hrs, hp]
  exact ⟨rfl, rfl, rfl, rfl⟩

/-- C6 (witness): the percent rule applied at the state reached after
`2, 0, 0, +, 1, 0` (base 200 pending behind `+`, current `10`). -/
theorem c6_percent_rule_witness :
    (percent ⟨["200", "+"], "10", false, none⟩).current = "20" ∧
      (percent ⟨["200", "+"], "10", false, none⟩).overwrite = false := by
  have h := c6_percent_rule.1 ⟨["200", "+"], "10", false, none⟩ ⟨10, 0⟩
    (by decide) (by decide)
  refine ⟨?_, h.2.1⟩
  rw [h.1]
  decide

/-- C7: in every reachable state the committed tokens strictly alternate —
the entry at index `i` is an operator exactly when `i` is odd, and a
canonical number otherwise — so the sequence never starts with an operator,
no two operators are adjacent, and at most the final entry can be a pending
operator. -/
theorem c7_tokens_alternate (s : CalculatorState) (hr : Reachable s) :
    (∀ i t, s.tokens.get? i = some t → (isOpTok t = true ↔ i % 2 = 1)) ∧
      (∀ t, s.tokens.get? 0 = some t → isOpTok t = false) ∧
      (∀ i t, s.tokens.get? i = some t → i % 2 = 0 → isCanonNum t = true) ∧
      (∀ i t t', s.tokens.get? i = some t → s.tokens.get? (i + 1) = some t' →
        ¬(isOpTok t = true ∧ isOpTok t' = true)) := by
  have hw := (inv_reachable s hr).1
  refine ⟨?_, ?_, ?_, ?_⟩
  · intro i t hg
    have h := (wf_get _ false i t hw hg).1
    simp only [Bool.false_xor] at h
    constructor
    · intro h1
      rw [h1] at h
      exact of_decide_eq_true h.symm
    · intro h1
      rw [h]
      simpa using h1
  · intro t hg
    have h := (wf_get _ false 0 t hw hg).1
    simpa using h
  · intro i t hg hm
    apply (wf_get _ false i t hw hg).2
    have hm' : ¬(i % 2 = 1) := by omega
    simp [hm']
  · rintro i t t' hg hg' ⟨h1, h2⟩
    have e1 := (wf_get _ false i t hw hg).1
    have e2 := (wf_get _ false (i + 1) t' hw hg').1
    rw [h1] at e1
    rw [h2] at e2
    have m1 : i % 2 = 1 := of_decide_eq_true (by simpa using e1.symm)
    have m2 : (i + 1) % 2 = 1 := of_decide_eq_true (by simpa using e2.symm)
    omega

/-- C7 (witness): the alternation statement applied to the reachable state
after the inputs `1, +`: index 1 holds the operator, index 0 a number. -/
theorem c7_tokens_alternate_witness :
    isOpTok "+" = true ↔ 1 % 2 = 1 := by
  have hreach : Reachable (procState "+" (procState "1" initState)) :=
    Reachable.step "+" _ (Reachable.step "1" _ Reachable.base)
  exact (c7_tokens_alternate _ hreach).1 1 "+" (by decide)

/-- C10: in every state observable between `process` calls the token
sequence is empty or ends with one of the operator tokens (a committed number
never rests at the end), and whenever Equals builds its evaluation list from
a nonempty token sequence, that list is the committed tokens with the
sanitized current entry appended — it always ends with a number. -/
theorem c10_tokens_end_with_operator (s : CalculatorState) (hr : Reachable s) :
    (s.tokens = [] ∨ ∃ t, s.tokens.getLast? = some t ∧ isOpTok t = true) ∧
      (∀ l, s.tokens ≠ [] →
        buildEvalList s.tokens s.current s.overwrite = some l →
        ∃ v, sanitizeNumber s.current = some v ∧ l = s.tokens ++ [v] ∧
          l.getLast? = some v ∧ isOpTok v = false) := by
  have hi := inv_reachable s hr
  constructor
  · rcases hi.2 with h | ⟨hl, _⟩
    · exact Or.inl h
    · right
      unfold lastIsOp at hl
      rcases hg : s.tokens.getLast? with _ | t
      · rw [hg] at hl
        exact absurd hl (by decide)
      · rw [hg] at hl
        exact ⟨t, rfl, hl⟩
  · intro l hne hb
    rcases hi.2 with h | ⟨hl, _⟩
    · exact absurd h hne
    · unfold buildEvalList at hb
      rw [hl] at hb
      simp only [Bool.or_true, if_true] at hb
      rcases hs : sanitizeNumber s.current with _ | v
      · rw [hs] at hb
        exact absurd hb (by simp)
      · rw [hs] at hb
        simp only [Option.some.injEq] at hb
        refine ⟨v, rfl, hb.symm, ?_, canon_not_op v (sanitize_canon _ _ hs)⟩
        rw [← hb, List.getLast?_concat]

/-- C10 (witness): the statement applied to the reachable state after
`1, +` — tokens end with the operator, and the Equals evaluation list is
`1 + 1`, ending with the number committed from `current`. -/
theorem c10_tokens_end_with_operator_witness :
    ∃ v, sanitizeNumber (procState "+" (procState "1" initState)).current = some v ∧
      ["1", "+", "1"] = (procState "+" (procState "1" initState)).tokens ++ [v] ∧
      (["1", "+", "1"] : List String).getLast? = some v ∧ isOpTok v = false := by
  have hreach : Reachable (procState "+" (procState "1" initState)) :=
    Reachable.step "+" _ (Reachable.step "1" _ Reachable.base)
  exact (c10_tokens_end_with_operator _ hreach).2 ["1", "+", "1"]
    (by decide) (by decide)

end CalcSpec
